import Mathlib

/-!
Shallow embedding of the hybrid document-retrieval subsystem of the
College_Project repository (src/utils/rag_system.py,
src/utils/medical_knowledge.py, src/utils/pdf_processor.py).

Python `Document` objects carry `page_content` and a metadata dict; the
retrieval logic only ever reads `metadata.get('category')`, so a document is
modelled as its content plus an optional category.  The dense (FAISS) and
sparse (BM25) scoring functions live in external libraries; they are taken as
abstract function parameters, while the corpora they are built over — the data
the repository's own code manipulates — are modelled explicitly.
-/

namespace CollegeProject

structure Doc where
  page_content : String
  category : Option String
deriving DecidableEq

/-- `doc.metadata.get('category', 'unknown')` as used in `_diversify_results`. -/
def getCategory (d : Doc) : String :=
  match d.category with
  | some c => c
  | none => "unknown"

/-- Python `sep.join(parts)`. -/
def joinWith (sep : String) : List String → String
  | [] => ""
  | [s] => s
  | s :: rest => s ++ sep ++ joinWith sep rest

def spaceSep : String := " "

def newlineSep : String := "\n"

/-- Does `needle` start the list `haystack`?  (Python `str.startswith`.) -/
def startsWithChars : List Char → List Char → Bool
  | [], _ => true
  | _ :: _, [] => false
  | a :: as, b :: bs => a == b && startsWithChars as bs

/-- Does `needle` occur contiguously inside `haystack`?  (Python `in`.) -/
def containsChars (needle : List Char) : List Char → Bool
  | [] => needle.isEmpty
  | c :: rest => startsWithChars needle (c :: rest) || containsChars needle rest

/-- Python `needle in haystack` on strings. -/
def pyIn (needle haystack : String) : Bool :=
  containsChars needle.data haystack.data

/-- `needle` occurs as a contiguous substring of `haystack` (stated on the
underlying character lists). -/
def ContainsSub (haystack needle : String) : Prop :=
  ∃ pre post : List Char, haystack.data = pre ++ needle.data ++ post

/-- Python `str.lower()` (ASCII-faithful). -/
def lowerStr (s : String) : String :=
  String.mk (s.data.map Char.toLower)

/-! ### MedicalKnowledgeBase (src/utils/medical_knowledge.py)

`get_relevant_documents` filters the knowledge-base document list by the
fixed `education_mapping` table.  The document list itself is produced at
startup by an external text splitter, so it is a parameter here. -/

/-- The `education_mapping` dict of
`MedicalKnowledgeBase.get_relevant_documents`, including the `.get(ty, [])`
default for unrecognized education types. -/
def education_mapping (education_type : String) : List String :=
  if education_type = "post_operative" then ["post_operative_care", "warning_signs"]
  else if education_type = "medication_guide" then ["medication_guidance", "warning_signs"]
  else if education_type = "diet_plan" then ["diet_and_nutrition", "warning_signs"]
  else []

/-- `MedicalKnowledgeBase.get_relevant_documents`: keep the documents whose
`category` metadata is one of the mapped categories. -/
def get_relevant_documents (documents : List Doc) (education_type : String) : List Doc :=
  documents.filter fun d =>
    match d.category with
    | some c => (education_mapping education_type).contains c
    | none => false

/-! ### The diversifier (`RAGSystem._diversify_results`)

The Python code groups documents into a dict keyed by category (dict
insertion order = first-seen order of categories, each group keeping input
order), which is rendered functionally: the key list is the first-seen
de-duplication of the category sequence, and each group is the filter of the
input by that category. -/

/-- First-seen de-duplication of a list (Python dict key insertion order). -/
def firstSeen : List String → List String
  | [] => []
  | c :: cs => c :: (firstSeen cs).filter (fun x => x != c)

/-- The `category_groups` dict built by `_diversify_results`. -/
def groupByCategory (documents : List Doc) : List (String × List Doc) :=
  (firstSeen (documents.map getCategory)).map fun c =>
    (c, documents.filter (fun d => getCategory d == c))

/-- The selection loop of `_diversify_results`: extend with up to
`max_per_category` documents from each group's head, breaking as soon as the
accumulator reaches `k`. -/
def takeFromGroups (max_per_category k : Nat) :
    List (String × List Doc) → List Doc → List Doc
  | [], diversified => diversified
  | (_, docs) :: rest, diversified =>
    let diversified2 := diversified ++ docs.take max_per_category
    if k ≤ diversified2.length then diversified2
    else takeFromGroups max_per_category k rest diversified2

/-- `RAGSystem._diversify_results` (leading underscore dropped). -/
def diversify_results (documents : List Doc) (k : Nat) : List Doc :=
  if documents.length ≤ k then documents
  else
    let category_groups := groupByCategory documents
    let max_per_category := max 1 (k / category_groups.length)
    (takeFromGroups max_per_category k category_groups []).take k

/-! ### RAGSystem state (src/utils/rag_system.py)

`vector_docs` is the corpus backing the FAISS store (`None` when the dense
retriever is unavailable), `bm25_docs` the corpus the BM25 retriever was last
built from, and `ensemble` records the pair of corpora the ensemble retriever
was created over (`None` when it was never created).  The external scoring
functions (FAISS similarity search, BM25 ranking, LangChain ensemble fusion)
are passed as abstract `Except`-valued parameters: a query against a backend
may either return a ranked list or raise. -/

structure RAGState where
  vector_docs : Option (List Doc)
  bm25_docs : Option (List Doc)
  ensemble : Option (List Doc × List Doc)
deriving DecidableEq

/-- `RAGSystem._create_ensemble_retriever`: the ensemble is (re)created only
when both the vector store and the BM25 retriever exist; otherwise the state
is left as it was. -/
def create_ensemble_retriever (st : RAGState) : RAGState :=
  match st.vector_docs, st.bm25_docs with
  | some vd, some bd => { st with ensemble := some (vd, bd) }
  | _, _ => st

/-- `RAGSystem.add_patient_documents`: append the patient chunks to the vector
store (or create it from them), then — if a BM25 retriever exists — rebuild it
from `medical_knowledge.get_all_documents() + patient_documents` and recreate
the ensemble retriever. -/
def add_patient_documents (kb_documents patient_documents : List Doc)
    (st : RAGState) : RAGState :=
  if patient_documents.isEmpty then st
  else
    let st1 :=
      match st.vector_docs with
      | some vd => { st with vector_docs := some (vd ++ patient_documents) }
      | none => { st with vector_docs := some patient_documents }
    match st1.bm25_docs with
    | some _ =>
      let all_documents := kb_documents ++ patient_documents
      create_ensemble_retriever { st1 with bm25_docs := some all_documents }
    | none => st1

/-- The query enhancement performed at the top of
`RAGSystem.retrieve_relevant_documents`. -/
def enhancedQuery (query education_type : String) : String :=
  query ++ " " ++ education_type ++ " patient education medical guidance"

/-- The ensemble stage of `retrieve_relevant_documents`: query the ensemble
retriever if it exists; a raised exception is caught and leaves the result
list empty. -/
def ensembleResult (es : List Doc → List Doc → String → Except String (List Doc))
    (st : RAGState) (q : String) : List Doc :=
  match st.ensemble with
  | some (vd, bd) =>
    match es vd bd q with
    | Except.ok docs => docs
    | Except.error _ => []
  | none => []

/-- The FAISS fallback stage of `retrieve_relevant_documents`: query the
vector store if it exists; a raised exception is caught and leaves the result
list empty. -/
def denseResult (ds : List Doc → String → Nat → Except String (List Doc))
    (st : RAGState) (q : String) (k : Nat) : List Doc :=
  match st.vector_docs with
  | some vd =>
    match ds vd q k with
    | Except.ok docs => docs
    | Except.error _ => []
  | none => []

/-- `RAGSystem.retrieve_relevant_documents`: try the ensemble retriever, fall
back to a FAISS similarity search, fall back to the static
education-type lookup, then diversify to at most `k` results. -/
def retrieve_relevant_documents
    (es : List Doc → List Doc → String → Except String (List Doc))
    (ds : List Doc → String → Nat → Except String (List Doc))
    (kb_documents : List Doc) (st : RAGState)
    (query education_type : String) (k : Nat) : List Doc :=
  let enhanced := enhancedQuery query education_type
  let docs1 := ensembleResult es st enhanced
  let docs2 := if docs1.isEmpty then denseResult ds st enhanced k else docs1
  let docs3 :=
    if docs2.isEmpty then get_relevant_documents kb_documents education_type
    else docs2
  diversify_results docs3 k

/-! ### Context assembler (`RAGSystem.get_context_for_generation`)

The patient-info dict is modelled by its three keyword lists together with an
abstract rendering function (Python's `f"{patient_info}"` repr).  The call to
`retrieve_relevant_documents` is abstracted to an `Except`-valued parameter so
that the catch-all `except` branch — claim C6's "every upstream retrieval step
errors" — is covered for arbitrary failures. -/

structure PatientInfo where
  conditions : List String
  procedures : List String
  medications : List String
deriving DecidableEq

/-- The query construction at the top of `get_context_for_generation`:
join each non-empty field, then join the parts; fall back to the education
type when every field is empty. -/
def buildQuery (pInfo : PatientInfo) (education_type : String) : String :=
  let query_parts :=
    (if pInfo.conditions.isEmpty then [] else [joinWith spaceSep pInfo.conditions]) ++
    (if pInfo.procedures.isEmpty then [] else [joinWith spaceSep pInfo.procedures]) ++
    (if pInfo.medications.isEmpty then [] else [joinWith spaceSep pInfo.medications])
  if query_parts.isEmpty then education_type else joinWith spaceSep query_parts

/-- The numbered guideline lines `f"\n{i}. {doc.page_content}"` appended for
each retrieved document (enumeration starting at 1). -/
def numberedGuidelines (docs : List Doc) : List String :=
  ((List.range docs.length).zip docs).map fun p =>
    "\n" ++ toString (p.1 + 1) ++ ". " ++ p.2.page_content

/-- `RAGSystem.get_context_for_generation`: on successful retrieval, join the
header lines and the numbered guidelines with newlines; on any upstream
error, the `except` branch returns the minimal two-line context. -/
def get_context_for_generation (render : PatientInfo → String)
    (retrieveDocs : String → String → Except String (List Doc))
    (pInfo : PatientInfo) (education_type : String) : String :=
  match retrieveDocs (buildQuery pInfo education_type) education_type with
  | Except.ok relevant_docs =>
    let context_parts :=
      ["Patient Information: " ++ render pInfo,
       "Education Type: " ++ education_type,
       "Relevant Medical Guidelines:"] ++ numberedGuidelines relevant_docs
    joinWith newlineSep context_parts
  | Except.error _ =>
    "Patient Information: " ++ render pInfo ++ "\n" ++
      "Education Type: " ++ education_type

/-! ### PDFProcessor.extract_medical_info (src/utils/pdf_processor.py) -/

def condition_keywords : List String :=
  ["diabetes", "hypertension", "surgery", "operation", "procedure",
   "diagnosis", "condition", "disease", "disorder", "syndrome"]

def medication_keywords : List String :=
  ["medication", "drug", "prescription", "pill", "tablet",
   "capsule", "dosage", "mg", "ml", "treatment"]

def procedure_keywords : List String :=
  ["surgery", "operation", "procedure", "treatment", "therapy",
   "intervention", "examination", "test", "scan", "biopsy"]

/-- `full_text = " ".join([doc.page_content for doc in documents]).lower()`. -/
def fullTextOf (documents : List Doc) : String :=
  lowerStr (joinWith spaceSep (documents.map fun d => d.page_content))

structure MedicalInfo where
  conditions : List String
  medications : List String
  procedures : List String
  raw_text_length : Nat
deriving DecidableEq

/-- `PDFProcessor.extract_medical_info`: collect, per field, the keywords of
that field's fixed list occurring in the lowercased joined text.  Python
appends matches in list order and then passes through `list(set(...))`, which
only de-duplicates; each keyword list is duplicate-free, so the filter below
has exactly the membership of the Python result. -/
def extract_medical_info (documents : List Doc) : MedicalInfo :=
  let full_text := fullTextOf documents
  { conditions := condition_keywords.filter fun kw => pyIn kw full_text
    medications := medication_keywords.filter fun kw => pyIn kw full_text
    procedures := procedure_keywords.filter fun kw => pyIn kw full_text
    raw_text_length := full_text.length }

/-! ### Named string constants and concrete demonstration inputs

Category and material-type identifiers from the source, bound to names so
that concrete states and theorem statements can refer to them. -/

def catA : String := "catA"

def catB : String := "catB"

def catPostOperativeCare : String := "post_operative_care"

def catWarningSigns : String := "warning_signs"

def catMedicationGuidance : String := "medication_guidance"

def catDietAndNutrition : String := "diet_and_nutrition"

def tyPostOperative : String := "post_operative"

def tyMedicationGuide : String := "medication_guide"

def tyDietPlan : String := "diet_plan"

def tyUnknownDemo : String := "summary"

def qDemo : String := "recovery"

def errMsg : String := "backend unavailable"

def kwSurgery : String := "surgery"

/-- A dense/sparse/ensemble backend whose every ensemble query raises. -/
def errES : List Doc → List Doc → String → Except String (List Doc) :=
  fun _ _ _ => Except.error errMsg

/-- A FAISS similarity search whose every query raises. -/
def errDS : List Doc → String → Nat → Except String (List Doc) :=
  fun _ _ _ => Except.error errMsg

/-- A demonstration BM25 ranking: return the whole corpus in order. -/
def demoSparse : List Doc → String → List Doc := fun docs _ => docs

def dA1 : Doc := { page_content := "a1", category := some catA }

def dA2 : Doc := { page_content := "a2", category := some catA }

def dB1 : Doc := { page_content := "b1", category := some catB }

def kbD : Doc := { page_content := "knowledge base chunk", category := some catPostOperativeCare }

def kbM : Doc := { page_content := "medication chunk", category := some catMedicationGuidance }

def spD : Doc := { page_content := "sparse only chunk", category := some catB }

def p1 : Doc := { page_content := "patient record one", category := none }

def p2 : Doc := { page_content := "patient record two", category := none }

/-- A fully initialized state (vector store, BM25 and ensemble all built over
the knowledge base `[kbD]`). -/
def st0full : RAGState :=
  { vector_docs := some [kbD], bm25_docs := some [kbD], ensemble := some ([kbD], [kbD]) }

/-- A state with dense available, sparse corpus `[spD]`, ensemble built. -/
def fullSt : RAGState :=
  { vector_docs := some [kbD], bm25_docs := some [spD], ensemble := some ([kbD], [spD]) }

/-- A state where no retriever was ever built. -/
def emptySt : RAGState :=
  { vector_docs := none, bm25_docs := none, ensemble := none }

/-- The state after two successive `add_patient_documents` calls (first `[p1]`,
then `[p2]`) on the fully initialized state. -/
def st2demo : RAGState :=
  add_patient_documents [kbD] [p2] (add_patient_documents [kbD] [p1] st0full)

def surgDoc : Doc := { page_content := "Scheduled for Surgery next week", category := none }

/-- Flatten the per-group head segments: what the selection loop appends when
it never breaks early (used to describe `takeFromGroups` output). -/
def takenOf (max_per_category : Nat) : List (String × List Doc) → List Doc
  | [] => []
  | g :: gs => g.2.take max_per_category ++ takenOf max_per_category gs

/-! ## Helper lemmas -/

theorem strData_append (s t : String) : (s ++ t).data = s.data ++ t.data := rfl

theorem startsWithChars_iff (n : List Char) : ∀ l : List Char,
    startsWithChars n l = true ↔ ∃ rest, l = n ++ rest := by
  induction n with
  | nil =>
    intro l
    simp [startsWithChars]
  | cons a as ih =>
    intro l
    cases l with
    | nil =>
      simp [startsWithChars]
    | cons b bs =>
      simp only [startsWithChars, Bool.and_eq_true, beq_iff_eq, ih bs]
      constructor
      · rintro ⟨rfl, rest, rfl⟩
        exact ⟨rest, rfl⟩
      · rintro ⟨rest, h⟩
        obtain ⟨h1, h2⟩ := List.cons.inj h
        exact ⟨h1.symm, rest, h2⟩

theorem containsChars_iff (n : List Char) : ∀ h : List Char,
    containsChars n h = true ↔ ∃ pre post, h = pre ++ n ++ post := by
  intro h
  induction h with
  | nil =>
    simp only [containsChars, List.isEmpty_iff]
    constructor
    · rintro rfl
      exact ⟨[], [], rfl⟩
    · rintro ⟨pre, post, hp⟩
      have := List.append_eq_nil.mp hp.symm
      exact (List.append_eq_nil.mp this.1).2
  | cons c rest ih =>
    simp only [containsChars, Bool.or_eq_true, startsWithChars_iff, ih]
    constructor
    · rintro (⟨r, hr⟩ | ⟨pre, post, hp⟩)
      · exact ⟨[], r, by simp [hr]⟩
      · exact ⟨c :: pre, post, by simp [hp]⟩
    · rintro ⟨pre, post, hp⟩
      cases pre with
      | nil =>
        exact Or.inl ⟨post, by simpa using hp⟩
      | cons x xs =>
        obtain ⟨h1, h2⟩ := List.cons.inj hp
        exact Or.inr ⟨xs, post, h2⟩

theorem pyIn_iff (needle haystack : String) :
    pyIn needle haystack = true ↔ ContainsSub haystack needle := by
  simp only [pyIn, ContainsSub, containsChars_iff]

theorem containsSub_self (s : String) : ContainsSub s s :=
  ⟨[], [], by simp⟩

theorem containsSub_left (a b needle : String) (h : ContainsSub a needle) :
    ContainsSub (a ++ b) needle := by
  obtain ⟨pre, post, hp⟩ := h
  exact ⟨pre, post ++ b.data, by simp [strData_append, hp]⟩

theorem containsSub_right (a b needle : String) (h : ContainsSub b needle) :
    ContainsSub (a ++ b) needle := by
  obtain ⟨pre, post, hp⟩ := h
  exact ⟨a.data ++ pre, post, by simp [strData_append, hp]⟩

theorem firstSeen_mem (c : String) : ∀ l : List String, c ∈ firstSeen l ↔ c ∈ l := by
  intro l
  induction l with
  | nil => simp [firstSeen]
  | cons a rest ih =>
    simp only [firstSeen, List.mem_cons, List.mem_filter, bne_iff_ne, ne_eq, ih]
    by_cases hca : c = a
    · simp [hca]
    · simp [hca]

theorem firstSeen_nodup : ∀ l : List String, (firstSeen l).Nodup := by
  intro l
  induction l with
  | nil => simp [firstSeen]
  | cons a rest ih =>
    refine List.Nodup.cons ?_ (List.Nodup.filter _ ih)
    intro hmem
    have := (List.mem_filter.mp hmem).2
    simp at this

theorem groupByCategory_keys (documents : List Doc) :
    (groupByCategory documents).map Prod.fst = firstSeen (documents.map getCategory) := by
  simp only [groupByCategory, List.map_map]
  show List.map (fun c => c) _ = _
  exact List.map_id' _

theorem mem_groupByCategory (documents : List Doc) (c : String) (ds : List Doc)
    (h : (c, ds) ∈ groupByCategory documents) :
    ds = documents.filter (fun d => getCategory d == c) ∧
      c ∈ firstSeen (documents.map getCategory) := by
  obtain ⟨a, ha, heq⟩ := List.mem_map.mp h
  obtain ⟨h1, h2⟩ := Prod.mk.injEq .. ▸ heq
  subst h1
  exact ⟨h2.symm, ha⟩

theorem groupByCategory_covers (documents : List Doc) (d : Doc) (hd : d ∈ documents) :
    (getCategory d, documents.filter (fun e => getCategory e == getCategory d)) ∈
      groupByCategory documents := by
  apply List.mem_map.mpr
  refine ⟨getCategory d, ?_, rfl⟩
  exact (firstSeen_mem _ _).mpr (List.mem_map.mpr ⟨d, hd, rfl⟩)

theorem takeFromGroups_mono (mpc k : Nat) :
    ∀ (gs : List (String × List Doc)) (acc : List Doc) (d : Doc),
      d ∈ acc → d ∈ takeFromGroups mpc k gs acc := by
  intro gs
  induction gs with
  | nil => intro acc d hd; exact hd
  | cons g rest ih =>
    intro acc d hd
    obtain ⟨c, ds⟩ := g
    simp only [takeFromGroups]
    split
    · exact List.mem_append_left _ hd
    · exact ih _ d (List.mem_append_left _ hd)

theorem takeFromGroups_sub (mpc k : Nat) :
    ∀ (gs : List (String × List Doc)) (acc : List Doc) (d : Doc),
      d ∈ takeFromGroups mpc k gs acc →
        d ∈ acc ∨ ∃ g ∈ gs, d ∈ g.2 := by
  intro gs
  induction gs with
  | nil => intro acc d hd; exact Or.inl hd
  | cons g rest ih =>
    intro acc d hd
    obtain ⟨c, ds⟩ := g
    simp only [takeFromGroups] at hd
    have fromAcc2 : d ∈ acc ++ ds.take mpc → d ∈ acc ∨ ∃ g ∈ (c, ds) :: rest, d ∈ g.2 := by
      intro hmem
      rcases List.mem_append.mp hmem with h | h
      · exact Or.inl h
      · exact Or.inr ⟨(c, ds), List.mem_cons_self _ _, List.take_subset _ _ h⟩
    split at hd
    · exact fromAcc2 hd
    · rcases ih _ d hd with h | ⟨g, hg, hmem⟩
      · exact fromAcc2 h
      · exact Or.inr ⟨g, List.mem_cons_of_mem _ hg, hmem⟩

theorem takeFromGroups_length (mpc k : Nat) :
    ∀ (gs : List (String × List Doc)) (acc : List Doc),
      (takeFromGroups mpc k gs acc).length ≤ acc.length + gs.length * mpc := by
  intro gs
  induction gs with
  | nil => intro acc; simp [takeFromGroups]
  | cons g rest ih =>
    intro acc
    obtain ⟨c, ds⟩ := g
    simp only [takeFromGroups]
    have htake : (ds.take mpc).length ≤ mpc := by
      simpa using Nat.min_le_left mpc ds.length
    have hmul : (rest.length + 1) * mpc = rest.length * mpc + mpc := Nat.succ_mul _ _
    split
    · simp only [List.length_append, List.length_cons]
      omega
    · have := ih (acc ++ ds.take mpc)
      simp only [List.length_append, List.length_cons] at this ⊢
      omega

theorem takeFromGroups_struct (mpc k : Nat) :
    ∀ (gs : List (String × List Doc)) (acc : List Doc),
      ∃ gs1 gs2, gs1 ++ gs2 = gs ∧
        takeFromGroups mpc k gs acc = acc ++ takenOf mpc gs1 := by
  intro gs
  induction gs with
  | nil => intro acc; exact ⟨[], [], rfl, by simp [takeFromGroups, takenOf]⟩
  | cons g rest ih =>
    intro acc
    obtain ⟨c, ds⟩ := g
    simp only [takeFromGroups]
    split
    · exact ⟨[(c, ds)], rest, rfl, by simp [takenOf]⟩
    · obtain ⟨gs1, gs2, hsplit, heq⟩ := ih (acc ++ ds.take mpc)
      refine ⟨(c, ds) :: gs1, gs2, by simp [hsplit], ?_⟩
      simp [heq, takenOf]

theorem takenOf_filter_nil (mpc : Nat) (c : String) :
    ∀ gs : List (String × List Doc),
      (∀ g ∈ gs, g.1 ≠ c) →
      (∀ g ∈ gs, ∀ d ∈ g.2, getCategory d = g.1) →
      (takenOf mpc gs).filter (fun d => getCategory d == c) = [] := by
  intro gs
  induction gs with
  | nil => intro _ _; simp [takenOf]
  | cons g rest ih =>
    intro hne hcat
    obtain ⟨c', ds⟩ := g
    simp only [takenOf, List.filter_append]
    rw [List.filter_eq_nil.mpr, ih, List.append_nil]
    · intro g hg
      exact hne g (List.mem_cons_of_mem _ hg)
    · intro g hg
      exact hcat g (List.mem_cons_of_mem _ hg)
    · intro d hd
      have hd' : d ∈ ds := List.take_subset _ _ hd
      have : getCategory d = c' := hcat (c', ds) (List.mem_cons_self _ _) d hd'
      simp only [beq_iff_eq, this]
      exact hne (c', ds) (List.mem_cons_self _ _)

theorem takenOf_count (mpc : Nat) (c : String) :
    ∀ gs : List (String × List Doc),
      ((gs.map Prod.fst).Nodup) →
      (∀ g ∈ gs, ∀ d ∈ g.2, getCategory d = g.1) →
      ((takenOf mpc gs).filter (fun d => getCategory d == c)).length ≤ mpc := by
  intro gs
  induction gs with
  | nil => intro _ _; simp [takenOf]
  | cons g rest ih =>
    intro hnodup hcat
    obtain ⟨c', ds⟩ := g
    simp only [List.map_cons, List.nodup_cons] at hnodup
    simp only [takenOf, List.filter_append, List.length_append]
    by_cases hcc : c' = c
    · subst hcc
      have hrest : (takenOf mpc rest).filter (fun d => getCategory d == c') = [] := by
        apply takenOf_filter_nil
        · intro g hg heq
          exact hnodup.1 (by simpa [heq] using List.mem_map_of_mem Prod.fst hg)
        · intro g hg
          exact hcat g (List.mem_cons_of_mem _ hg)
      rw [hrest]
      simp only [List.length_nil, Nat.add_zero]
      calc ((ds.take mpc).filter (fun d => getCategory d == c')).length
          ≤ (ds.take mpc).length := List.length_filter_le _ _
        _ ≤ mpc := by simpa using Nat.min_le_left mpc ds.length
    · have hhead : (ds.take mpc).filter (fun d => getCategory d == c) = [] := by
        apply List.filter_eq_nil.mpr
        intro d hd
        have : getCategory d = c' :=
          hcat (c', ds) (List.mem_cons_self _ _) d (List.take_subset _ _ hd)
        simp [this, hcc]
      rw [hhead]
      simp only [List.length_nil, Nat.zero_add]
      exact ih hnodup.2 (fun g hg => hcat g (List.mem_cons_of_mem _ hg))

theorem takeFromGroups_covers (mpc k : Nat) :
    ∀ (gs : List (String × List Doc)) (acc : List Doc),
      1 ≤ mpc →
      acc.length + (gs.length - 1) * mpc < k →
      ∀ g ∈ gs, g.2 ≠ [] →
        ∃ d ∈ takeFromGroups mpc k gs acc, d ∈ g.2 := by
  intro gs
  induction gs with
  | nil => intro acc _ _ g hg; exact absurd hg (List.not_mem_nil g)
  | cons g0 rest ih =>
    intro acc hmpc hlt g hg hne
    obtain ⟨c0, ds0⟩ := g0
    simp only [takeFromGroups]
    rcases List.mem_cons.mp hg with rfl | hgrest
    · -- the target group is the head group
      obtain ⟨d0, hd0⟩ : ∃ d0, d0 ∈ ds0.take mpc := by
        have : ds0.take mpc ≠ [] := by
          cases ds0 with
          | nil => exact absurd rfl hne
          | cons x xs =>
            cases mpc with
            | zero => omega
            | succ m => simp [List.take]
        exact List.exists_mem_of_ne_nil _ this
      have hd0acc2 : d0 ∈ acc ++ ds0.take mpc := List.mem_append_right _ hd0
      have hd0g : d0 ∈ ds0 := List.take_subset _ _ hd0
      split
      · exact ⟨d0, hd0acc2, hd0g⟩
      · exact ⟨d0, takeFromGroups_mono mpc k rest _ d0 hd0acc2, hd0g⟩
    · -- the target group lies in the tail
      have hrestlen : 1 ≤ rest.length := by
        cases rest with
        | nil => exact absurd hgrest (List.not_mem_nil g)
        | cons x xs => simp
      have htake : (ds0.take mpc).length ≤ mpc := by
        simpa using Nat.min_le_left mpc ds0.length
      have hslen : ((c0, ds0) :: rest).length - 1 = rest.length := by simp
      rw [hslen] at hlt
      have hrl : rest.length = (rest.length - 1) + 1 := by omega
      have hmul : rest.length * mpc = (rest.length - 1) * mpc + mpc := by
        calc rest.length * mpc = ((rest.length - 1) + 1) * mpc := by rw [← hrl]
          _ = (rest.length - 1) * mpc + mpc := Nat.succ_mul _ _
      have hacc2len : (acc ++ ds0.take mpc).length ≤ acc.length + mpc := by
        simp only [List.length_append]
        omega
      have hnobreak : ¬ k ≤ (acc ++ ds0.take mpc).length := by
        have hmpcle : mpc ≤ rest.length * mpc := Nat.le_mul_of_pos_left mpc (by omega)
        omega
      rw [if_neg hnobreak]
      apply ih (acc ++ ds0.take mpc) hmpc _ g hgrest hne
      have : (acc ++ ds0.take mpc).length + (rest.length - 1) * mpc ≤
          acc.length + rest.length * mpc := by
        simp only [List.length_append]
        omega
      omega

theorem diversify_length_le (documents : List Doc) (k : Nat) :
    (diversify_results documents k).length ≤ k := by
  unfold diversify_results
  split
  · assumption
  · simpa using Nat.min_le_left k _

theorem diversify_subset (documents : List Doc) (k : Nat) (d : Doc)
    (hd : d ∈ diversify_results documents k) : d ∈ documents := by
  unfold diversify_results at hd
  split at hd
  · exact hd
  · have hd' := List.take_subset _ _ hd
    rcases takeFromGroups_sub _ _ _ _ _ hd' with h | ⟨g, hg, hmem⟩
    · exact absurd h (List.not_mem_nil d)
    · obtain ⟨c, ds⟩ := g
      have := (mem_groupByCategory _ _ _ hg).1
      subst this
      exact List.mem_of_mem_filter hmem

theorem diversify_eq_of_le (documents : List Doc) (k : Nat)
    (h : documents.length ≤ k) : diversify_results documents k = documents := by
  unfold diversify_results
  exact if_pos h

/-! ## Claim theorems -/

/-- C9: for every document list whose length is at most `k`,
`_diversify_results` returns the input list unchanged — same documents, same
order, no capping, grouping or reordering. -/
theorem diversify_small_input_unchanged (documents : List Doc) (k : Nat)
    (h : documents.length ≤ k) : diversify_results documents k = documents :=
  diversify_eq_of_le documents k h

/-- Witness for C9 at a concrete input. -/
theorem diversify_small_input_unchanged_witness :
    diversify_results [dA1, dB1] 5 = [dA1, dB1] :=
  diversify_small_input_unchanged [dA1, dB1] 5 (by decide)

/-- C3 counterexample: the input `[dA1, dA2, dB1]` has two distinct
categories and `k = 1 ≥ 1`, yet the diversifier's output contains no document
of category `catB` — that category starves, contradicting the claim that every
represented category contributes at least `min(1, items_in_category)`
results.  (The selection loop breaks as soon as the output reaches `k`,
before later categories are visited.) -/
theorem diversify_starvation_counterexample :
    (firstSeen ([dA1, dA2, dB1].map getCategory)).length = 2 ∧
    (∃ d ∈ [dA1, dA2, dB1], getCategory d = catB) ∧
    ¬ (∃ d ∈ diversify_results [dA1, dA2, dB1] 1, getCategory d = catB) := by
  decide

/-- C3 amended: provided `k` is at least the number of distinct categories in
the input, the diversifier's output contains at least one result from every
category represented in the input. -/
theorem diversify_no_starvation (documents : List Doc) (k : Nat) (cat : String)
    (hk : 1 ≤ k) (hc : (groupByCategory documents).length ≤ k)
    (hcat : ∃ d ∈ documents, getCategory d = cat) :
    ∃ d ∈ diversify_results documents k, getCategory d = cat := by
  by_cases hlen : documents.length ≤ k
  · rw [diversify_eq_of_le documents k hlen]
    exact hcat
  · obtain ⟨d0, hd0, hd0cat⟩ := hcat
    have hgrp : (cat, documents.filter (fun e => getCategory e == cat)) ∈
        groupByCategory documents := by
      have := groupByCategory_covers documents d0 hd0
      rwa [hd0cat] at this
    have hgsne : groupByCategory documents ≠ [] := List.ne_nil_of_mem hgrp
    have hglen : 1 ≤ (groupByCategory documents).length :=
      List.length_pos.mpr hgsne
    have hq : 1 ≤ k / (groupByCategory documents).length :=
      (Nat.one_le_div_iff (by omega)).mpr hc
    have hmpc_eq : max 1 (k / (groupByCategory documents).length) =
        k / (groupByCategory documents).length := max_eq_right hq
    have hnq : (groupByCategory documents).length *
        (k / (groupByCategory documents).length) ≤ k := by
      rw [Nat.mul_comm]
      exact Nat.div_mul_le_self k _
    have hsucc : ((groupByCategory documents).length - 1) *
          (k / (groupByCategory documents).length) +
          (k / (groupByCategory documents).length) =
        (groupByCategory documents).length *
          (k / (groupByCategory documents).length) := by
      have h1 : (groupByCategory documents).length - 1 + 1 =
          (groupByCategory documents).length := by omega
      calc ((groupByCategory documents).length - 1) *
            (k / (groupByCategory documents).length) +
            (k / (groupByCategory documents).length)
          = ((groupByCategory documents).length - 1 + 1) *
            (k / (groupByCategory documents).length) := (Nat.succ_mul _ _).symm
        _ = _ := by rw [h1]
    have harith : ([] : List Doc).length +
        ((groupByCategory documents).length - 1) *
          (max 1 (k / (groupByCategory documents).length)) < k := by
      rw [hmpc_eq]
      simp only [List.length_nil, Nat.zero_add]
      omega
    have hfilne : documents.filter (fun e => getCategory e == cat) ≠ [] := by
      apply List.ne_nil_of_mem (a := d0)
      exact List.mem_filter.mpr ⟨hd0, by simp [hd0cat]⟩
    obtain ⟨d, hdTG, hdfil⟩ :=
      takeFromGroups_covers (max 1 (k / (groupByCategory documents).length)) k
        (groupByCategory documents) [] (le_max_left _ _) harith
        (cat, documents.filter (fun e => getCategory e == cat)) hgrp hfilne
    have hcatd : getCategory d = cat := by
      have := (List.mem_filter.mp hdfil).2
      simpa using this
    have htglen : (takeFromGroups
        (max 1 (k / (groupByCategory documents).length)) k
        (groupByCategory documents) []).length ≤ k := by
      have hlenb := takeFromGroups_length
        (max 1 (k / (groupByCategory documents).length)) k
        (groupByCategory documents) []
      have hbound : (groupByCategory documents).length *
          (max 1 (k / (groupByCategory documents).length)) ≤ k := by
        rw [hmpc_eq]
        exact hnq
      simp only [List.length_nil, Nat.zero_add] at hlenb
      omega
    have hdef : diversify_results documents k = (takeFromGroups
        (max 1 (k / (groupByCategory documents).length)) k
        (groupByCategory documents) []).take k := by
      unfold diversify_results
      rw [if_neg hlen]
    have htake : (takeFromGroups
        (max 1 (k / (groupByCategory documents).length)) k
        (groupByCategory documents) []).take k = takeFromGroups
        (max 1 (k / (groupByCategory documents).length)) k
        (groupByCategory documents) [] := List.take_of_length_le htglen
    refine ⟨d, ?_, hcatd⟩
    rw [hdef, htake]
    exact hdTG

/-- Witness for the amended C3 at a concrete input: with two categories and
`k = 2`, category `catB` is represented in the output. -/
theorem diversify_no_starvation_witness :
    ∃ d ∈ diversify_results [dA1, dA2, dB1] 2, getCategory d = catB :=
  diversify_no_starvation [dA1, dA2, dB1] 2 catB (by decide) (by decide) (by decide)

/-- C4 counterexample: for the three-document input `[dA1, dA2, dB1]` and
`k = 3 ≥ 1`, the output keeps two documents of category `catA`, exceeding the
claimed per-category cap `max(1, floor(k / distinct_categories)) = 1`: when
the input is no longer than `k`, `_diversify_results` returns it unchanged and
applies no per-category cap at all. -/
theorem diversify_cap_counterexample :
    ¬ (((diversify_results [dA1, dA2, dB1] 3).filter
          (fun d => getCategory d == catA)).length
        ≤ max 1 (3 / (groupByCategory [dA1, dA2, dB1]).length)) := by
  decide

/-- C4 amended: the output length is at most `k` for every input; the
per-category cap `max(1, floor(k / distinct_categories))`, taken from each
category's head in category-first-seen order, applies only when the input is
longer than `k` (otherwise the input is returned unchanged). -/
theorem diversify_length_and_cap (documents : List Doc) (k : Nat) :
    (diversify_results documents k).length ≤ k ∧
    (k < documents.length → ∀ cat : String,
      ((diversify_results documents k).filter (fun d => getCategory d == cat)).length
        ≤ max 1 (k / (groupByCategory documents).length)) := by
  refine ⟨diversify_length_le documents k, ?_⟩
  intro hlt cat
  have hneg : ¬ documents.length ≤ k := by omega
  have hdef : diversify_results documents k = (takeFromGroups
      (max 1 (k / (groupByCategory documents).length)) k
      (groupByCategory documents) []).take k := by
    unfold diversify_results
    rw [if_neg hneg]
  obtain ⟨gs1, gs2, hsplit, heq⟩ := takeFromGroups_struct
    (max 1 (k / (groupByCategory documents).length)) k
    (groupByCategory documents) []
  rw [List.nil_append] at heq
  have hsubl : ((diversify_results documents k).filter
      (fun d => getCategory d == cat)).length ≤
      ((takenOf (max 1 (k / (groupByCategory documents).length)) gs1).filter
        (fun d => getCategory d == cat)).length := by
    rw [hdef, heq]
    exact ((List.take_sublist k _).filter _).length_le
  have hkeys : ((groupByCategory documents).map Prod.fst).Nodup := by
    rw [groupByCategory_keys]
    exact firstSeen_nodup _
  have hkeys1 : (gs1.map Prod.fst).Nodup := by
    rw [← hsplit, List.map_append] at hkeys
    exact hkeys.of_append_left
  have hcat1 : ∀ g ∈ gs1, ∀ d ∈ g.2, getCategory d = g.1 := by
    intro g hg d hd
    have hgmem : g ∈ groupByCategory documents := by
      rw [← hsplit]
      exact List.mem_append_left _ hg
    obtain ⟨c, ds⟩ := g
    have := (mem_groupByCategory _ _ _ hgmem).1
    subst this
    have := (List.mem_filter.mp hd).2
    simpa using this
  calc ((diversify_results documents k).filter (fun d => getCategory d == cat)).length
      ≤ _ := hsubl
    _ ≤ max 1 (k / (groupByCategory documents).length) :=
      takenOf_count _ cat gs1 hkeys1 hcat1

/-- Witness for the amended C4 at a concrete input. -/
theorem diversify_length_and_cap_witness :
    (diversify_results [dA1, dA2, dB1] 1).length ≤ 1 ∧
    ((diversify_results [dA1, dA2, dB1] 1).filter
        (fun d => getCategory d == catA)).length
      ≤ max 1 (1 / (groupByCategory [dA1, dA2, dB1]).length) :=
  ⟨(diversify_length_and_cap [dA1, dA2, dB1] 1).1,
   (diversify_length_and_cap [dA1, dA2, dB1] 1).2 (by decide) catA⟩

/-- C1 counterexample: with the dense backend unavailable at query time (the
ensemble query and the direct FAISS query both raise) while the sparse (BM25)
retriever is operational with corpus `[spD]`, the sparse top-k for the query
is `[spD]`, but `retrieve_relevant_documents` returns the static
knowledge-base fallback `[kbD]` — its output is not the sparse retriever's
top-k, and the sparse-only result `spD` does not even appear.  The fallback
chain is ensemble → FAISS → static lookup; the sparse index is never queried
on its own. -/
theorem dense_unavailable_not_sparse_topk :
    demoSparse [spD] (enhancedQuery qDemo tyPostOperative) = [spD] ∧
    retrieve_relevant_documents errES errDS [kbD] fullSt qDemo tyPostOperative 10
      = [kbD] ∧
    spD ∉ retrieve_relevant_documents errES errDS [kbD] fullSt qDemo tyPostOperative 10 := by
  decide

/-- C1 amended: if the dense backend is unavailable (every ensemble query and
every direct FAISS query raises), `retrieve_relevant_documents` degrades to
the static category lookup diversified to at most `k` — a result independent
of the sparse corpus `bd`; sparse-only retrieval never happens. -/
theorem dense_unavailable_static_fallback
    (es : List Doc → List Doc → String → Except String (List Doc))
    (ds : List Doc → String → Nat → Except String (List Doc))
    (kb_documents vd bd : List Doc) (query education_type : String) (k : Nat)
    (h1 : ∃ e, es vd bd (enhancedQuery query education_type) = Except.error e)
    (h2 : ∃ e, ds vd (enhancedQuery query education_type) k = Except.error e) :
    retrieve_relevant_documents es ds kb_documents
        { vector_docs := some vd, bm25_docs := some bd, ensemble := some (vd, bd) }
        query education_type k
      = diversify_results (get_relevant_documents kb_documents education_type) k := by
  obtain ⟨e1, he1⟩ := h1
  obtain ⟨e2, he2⟩ := h2
  simp only [retrieve_relevant_documents, ensembleResult, denseResult, he1, he2,
    List.isEmpty_nil, if_true]

/-- Witness for the amended C1 at a concrete input. -/
theorem dense_unavailable_static_fallback_witness :
    retrieve_relevant_documents errES errDS [kbD] fullSt qDemo tyPostOperative 10
      = diversify_results (get_relevant_documents [kbD] tyPostOperative) 10 :=
  dense_unavailable_static_fallback errES errDS [kbD] [kbD] [spD] qDemo
    tyPostOperative 10 ⟨errMsg, rfl⟩ ⟨errMsg, rfl⟩

/-- C7: whenever no retriever produces any result (the ensemble stage and the
dense fallback stage both come back empty), retrieval returns the statically
mapped chunks for the requested material type — the knowledge-base chunks
whose category the fixed `education_mapping` table assigns to the type —
diversified to at most `k` results: the output is exactly the diversified
static set, has length ≤ k, draws only from the statically mapped set, and
equals the full statically mapped set whenever that set fits within `k`; the
table maps post_operative ↦ (post_operative_care, warning_signs),
medication_guide ↦ (medication_guidance, warning_signs) and diet_plan ↦
(diet_and_nutrition, warning_signs). -/
theorem retrieval_static_fallback
    (es : List Doc → List Doc → String → Except String (List Doc))
    (ds : List Doc → String → Nat → Except String (List Doc))
    (kb_documents : List Doc) (st : RAGState)
    (query education_type : String) (k : Nat)
    (h1 : ensembleResult es st (enhancedQuery query education_type) = [])
    (h2 : denseResult ds st (enhancedQuery query education_type) k = []) :
    retrieve_relevant_documents es ds kb_documents st query education_type k
      = diversify_results (get_relevant_documents kb_documents education_type) k ∧
    (retrieve_relevant_documents es ds kb_documents st query education_type k).length
      ≤ k ∧
    (∀ d ∈ retrieve_relevant_documents es ds kb_documents st query education_type k,
      d ∈ get_relevant_documents kb_documents education_type) ∧
    ((get_relevant_documents kb_documents education_type).length ≤ k →
      retrieve_relevant_documents es ds kb_documents st query education_type k
        = get_relevant_documents kb_documents education_type) ∧
    education_mapping tyPostOperative = [catPostOperativeCare, catWarningSigns] ∧
    education_mapping tyMedicationGuide = [catMedicationGuidance, catWarningSigns] ∧
    education_mapping tyDietPlan = [catDietAndNutrition, catWarningSigns] := by
  have hret : retrieve_relevant_documents es ds kb_documents st query education_type k
      = diversify_results (get_relevant_documents kb_documents education_type) k := by
    simp only [retrieve_relevant_documents, h1, h2, List.isEmpty_nil, if_true]
  refine ⟨hret, ?_, ?_, ?_, by decide, by decide, by decide⟩
  · rw [hret]
    exact diversify_length_le _ _
  · intro d hd
    rw [hret] at hd
    exact diversify_subset _ _ _ hd
  · intro hle
    rw [hret]
    exact diversify_eq_of_le _ _ hle

/-- Witness for C7 at a concrete input: no retriever was ever built, so both
stages return empty and the static fallback is served. -/
theorem retrieval_static_fallback_witness :
    retrieve_relevant_documents errES errDS [kbM] emptySt qDemo tyMedicationGuide 5
      = diversify_results (get_relevant_documents [kbM] tyMedicationGuide) 5 ∧
    (retrieve_relevant_documents errES errDS [kbM] emptySt qDemo
        tyMedicationGuide 5).length ≤ 5 :=
  ⟨(retrieval_static_fallback errES errDS [kbM] emptySt qDemo tyMedicationGuide 5
      rfl rfl).1,
   (retrieval_static_fallback errES errDS [kbM] emptySt qDemo tyMedicationGuide 5
      rfl rfl).2.1⟩

/-- C8 counterexample: for the material type `"summary"`, which lies outside
the closed set, the system neither raises an `UnknownMaterialType`-style
error nor falls back to a default category — it silently returns the empty
document set, even though the knowledge base is non-empty. -/
theorem unknown_type_silent_empty_counterexample :
    get_relevant_documents [kbD] tyUnknownDemo = [] ∧
    retrieve_relevant_documents errES errDS [kbD] emptySt qDemo tyUnknownDemo 5
      = [] ∧
    [kbD] ≠ ([] : List Doc) := by
  decide

/-- C8 amended: every material-type identifier outside
`{post_operative, medication_guide, diet_plan}` maps to the empty category
list and hence to an empty document set — the fallback is silent emptiness,
not an error and not a default category. -/
theorem unknown_type_yields_empty (documents : List Doc) (education_type : String)
    (h1 : education_type ≠ "post_operative")
    (h2 : education_type ≠ "medication_guide")
    (h3 : education_type ≠ "diet_plan") :
    education_mapping education_type = [] ∧
    get_relevant_documents documents education_type = [] := by
  have hmap : education_mapping education_type = [] := by
    unfold education_mapping
    rw [if_neg h1, if_neg h2, if_neg h3]
  refine ⟨hmap, ?_⟩
  unfold get_relevant_documents
  apply List.filter_eq_nil_iff.mpr
  intro d hd
  cases hc : d.category with
  | some c => simp [hc, hmap]
  | none => simp [hc]

/-- Witness for the amended C8 at a concrete input. -/
theorem unknown_type_yields_empty_witness :
    education_mapping tyUnknownDemo = [] ∧
    get_relevant_documents [kbD] tyUnknownDemo = [] :=
  unknown_type_yields_empty [kbD] tyUnknownDemo (by decide) (by decide) (by decide)

/-- C2 (code-bug evidence): evaluating `add_patient_documents` at the failing
input — two successive calls adding `[p1]` and then `[p2]` to a fully
initialized system — shows the BM25 index is rebuilt over the knowledge base
plus only the *current* call's patient documents: after the second call its
corpus is `[kbD, p2]` and the chunk `p1` added by the first call is gone,
although the vector store still holds it.  This contradicts the rebuild
comment in the source ("Recreate BM25 with all documents") and the spec's
rebuild policy. -/
theorem add_patient_documents_drops_earlier_chunks :
    st2demo.bm25_docs = some [kbD, p2] ∧
    p1 ∉ (st2demo.bm25_docs).getD [] ∧
    st2demo.vector_docs = some [kbD, p1, p2] ∧
    p1 ∈ (st2demo.vector_docs).getD [] := by
  decide

/-- C6: the context assembler is a total function (the Lean embedding returns
a `String` for every input, mirroring the catch-all exception handler), and
for every patient-signals record, education type and upstream retrieval
outcome — including an arbitrary retrieval failure — its output contains the
rendered patient signals and the education/material type as substrings. -/
theorem context_generation_contains_signals
    (render : PatientInfo → String)
    (retrieveDocs : String → String → Except String (List Doc))
    (pInfo : PatientInfo) (education_type : String) :
    ContainsSub (get_context_for_generation render retrieveDocs pInfo education_type)
      (render pInfo) ∧
    ContainsSub (get_context_for_generation render retrieveDocs pInfo education_type)
      education_type := by
  unfold get_context_for_generation
  cases h : retrieveDocs (buildQuery pInfo education_type) education_type with
  | ok docs =>
    constructor
    · show ContainsSub ((("Patient Information: " ++ render pInfo) ++ newlineSep) ++
        joinWith newlineSep (("Education Type: " ++ education_type) ::
          "Relevant Medical Guidelines:" :: numberedGuidelines docs)) (render pInfo)
      exact containsSub_left _ _ _ (containsSub_left _ _ _
        (containsSub_right _ _ _ (containsSub_self _)))
    · show ContainsSub ((("Patient Information: " ++ render pInfo) ++ newlineSep) ++
        ((("Education Type: " ++ education_type) ++ newlineSep) ++
          joinWith newlineSep ("Relevant Medical Guidelines:" ::
            numberedGuidelines docs))) education_type
      exact containsSub_right _ _ _ (containsSub_left _ _ _
        (containsSub_left _ _ _ (containsSub_right _ _ _ (containsSub_self _))))
  | error e =>
    constructor
    · exact containsSub_left _ _ _ (containsSub_left _ _ _
        (containsSub_left _ _ _ (containsSub_right _ _ _ (containsSub_self _))))
    · exact containsSub_right _ _ _ (containsSub_self _)

/-- C10: for every document list, each of the `conditions`, `medications` and
`procedures` fields of `extract_medical_info` holds exactly the keywords of
its fixed built-in list that occur as substrings of the lowercased
space-joined document text; a keyword shared between lists — such as
"surgery", in both the condition and the procedure lists — appears in every
field whose list contains it. -/
theorem extract_medical_info_keyword_sets (documents : List Doc) (kw : String) :
    (kw ∈ (extract_medical_info documents).conditions ↔
      kw ∈ condition_keywords ∧ ContainsSub (fullTextOf documents) kw) ∧
    (kw ∈ (extract_medical_info documents).medications ↔
      kw ∈ medication_keywords ∧ ContainsSub (fullTextOf documents) kw) ∧
    (kw ∈ (extract_medical_info documents).procedures ↔
      kw ∈ procedure_keywords ∧ ContainsSub (fullTextOf documents) kw) ∧
    (ContainsSub (fullTextOf documents) kwSurgery →
      kwSurgery ∈ (extract_medical_info documents).conditions ∧
      kwSurgery ∈ (extract_medical_info documents).procedures) := by
  have hc : ∀ (l : List String) (w : String),
      w ∈ l.filter (fun x => pyIn x (fullTextOf documents)) ↔
        w ∈ l ∧ ContainsSub (fullTextOf documents) w := by
    intro l w
    rw [List.mem_filter, pyIn_iff]
  refine ⟨hc _ _, hc _ _, hc _ _, ?_⟩
  intro hsub
  exact ⟨(hc condition_keywords kwSurgery).mpr ⟨by decide, hsub⟩,
    (hc procedure_keywords kwSurgery).mpr ⟨by decide, hsub⟩⟩

/-- Witness for C10 at a concrete input containing "Surgery": the shared
keyword appears in both the conditions and the procedures fields. -/
theorem extract_medical_info_keyword_sets_witness :
    kwSurgery ∈ (extract_medical_info [surgDoc]).conditions ∧
    kwSurgery ∈ (extract_medical_info [surgDoc]).procedures :=
  (extract_medical_info_keyword_sets [surgDoc] kwSurgery).2.2.2
    ((pyIn_iff kwSurgery (fullTextOf [surgDoc])).mp (by decide))

end CollegeProject
